import Mathlib

/-!
Verification of the autograder harness and computation-graph tracer
(`ml_example.py`): the `trace_node` depth-first traversal over the DAG of
computation nodes, and the `Tracker` state machine governing the
question/test scoring lifecycle, together with the driving loop `main`.

Python objects are modelled by identity: a graph is a function from node
identities to the list of identities of its `parents`.  The recursion of
`trace_node.visit` is embedded with an explicit fuel parameter; acyclicity
of the graph is expressed by a rank function that strictly decreases along
the `parents` relation, and all theorems show that any fuel exceeding the
rank of the root gives the (unique) value of the Python recursion.
-/

namespace MLSpec

/-- The mutable state of `trace_node`: the `nodes` visited set and the
`tape` output sequence. -/
structure TraceState (α : Type) where
  nodes : Finset α
  tape : List α
  deriving DecidableEq

/-- `trace_node.visit`: if the node is not yet in the visited set, first
visit all parents, then add the node to the visited set and append it to
the tape.  `fuel` bounds the recursion depth (the Python function recurses
without a bound; every theorem below supplies enough fuel for the
recursion to have fully unfolded). -/
def visit {α : Type} [DecidableEq α] (G : α → List α) : Nat → α → TraceState α → TraceState α
  | 0, _, s => s
  | fuel + 1, n, s =>
    if n ∈ s.nodes then s
    else
      let s1 := (G n).foldl (fun acc p => visit G fuel p acc) s
      { nodes := insert n s1.nodes, tape := s1.tape ++ [n] }

/-- `trace_node`: run `visit` on the root starting from an empty visited
set and empty tape.  (The Python function returns the `nodes` set; the
tape is kept in the state as in the source.) -/
def trace_node {α : Type} [DecidableEq α] (G : α → List α) (fuel : Nat) (node_to_trace : α) : TraceState α :=
  visit G fuel node_to_trace { nodes := ∅, tape := [] }

/-- Reachability along the `parents` relation: `Reaches G a b` holds when
`b` is `a` itself or an ancestor of `a`. -/
def Reaches {α : Type} (G : α → List α) (a b : α) : Prop :=
  Relation.ReflTransGen (fun x y => y ∈ G x) a b

/-- A set of nodes closed under taking parents. -/
def ParentClosed {α : Type} (G : α → List α) (s : Finset α) : Prop :=
  ∀ x ∈ s, ∀ p ∈ G x, p ∈ s

/-- Invariant of the traversal state: the visited set is parent-closed and
is exactly the set of tape entries, and the tape has no duplicates. -/
def GoodState {α : Type} [DecidableEq α] (G : α → List α) (s : TraceState α) : Prop :=
  ParentClosed G s.nodes ∧ s.nodes = s.tape.toFinset ∧ s.tape.Nodup

theorem reaches_rank_le {α : Type} (G : α → List α) (rank : α → Nat)
    (hr : ∀ x, ∀ p ∈ G x, rank p < rank x) {a b : α} (h : Reaches G a b) :
    rank b ≤ rank a := by
  induction h with
  | refl => exact le_refl _
  | tail _ hstep ih => exact le_trans (le_of_lt (hr _ _ hstep)) ih

theorem mem_of_reaches_of_closed {α : Type} (G : α → List α) {s : Finset α}
    (hc : ParentClosed G s) {a b : α} (ha : a ∈ s) (h : Reaches G a b) : b ∈ s := by
  induction h with
  | refl => exact ha
  | tail _ hstep ih => exact hc _ ih _ hstep

theorem reaches_iff_head {α : Type} (G : α → List α) (n m : α) :
    Reaches G n m ↔ m = n ∨ ∃ p ∈ G n, Reaches G p m := by
  constructor
  · intro h
    rcases Relation.ReflTransGen.cases_head h with h | ⟨c, hc, h2⟩
    · exact Or.inl h.symm
    · exact Or.inr ⟨c, hc, h2⟩
  · rintro (rfl | ⟨p, hp, h⟩)
    · exact Relation.ReflTransGen.refl
    · exact Relation.ReflTransGen.head hp h

theorem visit_fuel_congr {α : Type} [DecidableEq α] (G : α → List α) (rank : α → Nat)
    (hr : ∀ x, ∀ p ∈ G x, rank p < rank x) :
    ∀ (fuel1 fuel2 : Nat) (n : α) (s : TraceState α),
      rank n < fuel1 → rank n < fuel2 → visit G fuel1 n s = visit G fuel2 n s := by
  intro fuel1
  induction fuel1 with
  | zero =>
    intro fuel2 n s h1 _
    exact absurd h1 (Nat.not_lt_zero _)
  | succ f1 ih =>
    intro fuel2 n s h1 h2
    cases fuel2 with
    | zero => exact absurd h2 (Nat.not_lt_zero _)
    | succ f2 =>
      by_cases hn : n ∈ s.nodes
      · simp [visit, hn]
      · have hfold : (G n).foldl (fun acc p => visit G f1 p acc) s
            = (G n).foldl (fun acc p => visit G f2 p acc) s := by
          refine List.foldl_ext _ _ s (fun acc p hp => ?_)
          have hpn : rank p < rank n := hr n p hp
          exact ih f2 p acc (by omega) (by omega)
        have e1 : visit G (f1 + 1) n s
            = { nodes := insert n ((G n).foldl (fun acc p => visit G f1 p acc) s).nodes,
                tape := ((G n).foldl (fun acc p => visit G f1 p acc) s).tape ++ [n] } := by
          simp [visit, hn]
        have e2 : visit G (f2 + 1) n s
            = { nodes := insert n ((G n).foldl (fun acc p => visit G f2 p acc) s).nodes,
                tape := ((G n).foldl (fun acc p => visit G f2 p acc) s).tape ++ [n] } := by
          simp [visit, hn]
        rw [e1, e2, hfold]

theorem visit_sound {α : Type} [DecidableEq α] (G : α → List α) (rank : α → Nat)
    (hr : ∀ x, ∀ p ∈ G x, rank p < rank x) :
    ∀ (fuel : Nat) (n : α) (s : TraceState α), rank n < fuel → GoodState G s →
      (∀ m, m ∈ (visit G fuel n s).nodes ↔ m ∈ s.nodes ∨ Reaches G n m) ∧
      GoodState G (visit G fuel n s) := by
  intro fuel
  induction fuel with
  | zero =>
    intro n s h _
    exact absurd h (Nat.not_lt_zero _)
  | succ f ih =>
    intro n s hf hs
    have hfold : ∀ (ps : List α), (∀ p ∈ ps, rank p < f) → ∀ (s0 : TraceState α), GoodState G s0 →
        (∀ m, m ∈ (ps.foldl (fun acc p => visit G f p acc) s0).nodes
            ↔ m ∈ s0.nodes ∨ ∃ p ∈ ps, Reaches G p m) ∧
        GoodState G (ps.foldl (fun acc p => visit G f p acc) s0) := by
      intro ps
      induction ps with
      | nil =>
        intro _ s0 hs0
        exact ⟨fun m => by simp, hs0⟩
      | cons p ps ihp =>
        intro hp s0 hs0
        obtain ⟨h1, h2⟩ := ih p s0 (hp p (List.mem_cons_self _ _)) hs0
        obtain ⟨h3, h4⟩ := ihp (fun x hx => hp x (List.mem_cons_of_mem _ hx)) (visit G f p s0) h2
        constructor
        · intro m
          rw [List.foldl_cons, h3 m, h1 m]
          simp only [List.mem_cons]
          constructor
          · rintro ((hm | hm) | ⟨x, hx, hre⟩)
            · exact Or.inl hm
            · exact Or.inr ⟨p, Or.inl rfl, hm⟩
            · exact Or.inr ⟨x, Or.inr hx, hre⟩
          · rintro (hm | ⟨x, (rfl | hx), hre⟩)
            · exact Or.inl (Or.inl hm)
            · exact Or.inl (Or.inr hre)
            · exact Or.inr ⟨x, hx, hre⟩
        · rw [List.foldl_cons]
          exact h4
    by_cases hn : n ∈ s.nodes
    · constructor
      · intro m
        simp only [visit, hn, if_pos]
        constructor
        · exact fun hm => Or.inl hm
        · rintro (hm | hm)
          · exact hm
          · exact mem_of_reaches_of_closed G hs.1 hn hm
      · simpa [visit, hn] using hs
    · have hps : ∀ p ∈ G n, rank p < f := by
        intro p hp
        have := hr n p hp
        omega
      obtain ⟨hm1, hc1, hteq, hnd⟩ := hfold (G n) hps s hs
      have hveq : visit G (f + 1) n s
          = { nodes := insert n ((G n).foldl (fun acc p => visit G f p acc) s).nodes,
              tape := ((G n).foldl (fun acc p => visit G f p acc) s).tape ++ [n] } := by
        simp [visit, hn]
      have hnotn : n ∉ ((G n).foldl (fun acc p => visit G f p acc) s).nodes := by
        intro hcon
        rcases (hm1 n).mp hcon with h | ⟨p, hp, hre⟩
        · exact hn h
        · have h1 := reaches_rank_le G rank hr hre
          have h2 := hr n p hp
          omega
      rw [hveq]
      refine ⟨?_, ?_, ?_, ?_⟩
      · intro m
        simp only [Finset.mem_insert]
        rw [hm1 m, reaches_iff_head G n m]
        tauto
      · intro x hx p hp
        simp only [Finset.mem_insert] at hx ⊢
        rcases hx with rfl | hx
        · exact Or.inr ((hm1 p).mpr (Or.inr ⟨p, hp, Relation.ReflTransGen.refl⟩))
        · exact Or.inr (hc1 x hx p hp)
      · simp only [List.toFinset_append, List.toFinset_cons, List.toFinset_nil]
        rw [hteq]
        ext x
        simp [or_comm]
      · rw [List.nodup_append]
        refine ⟨hnd, List.nodup_singleton _, ?_⟩
        intro x hx hx1
        rcases List.mem_singleton.mp hx1 with rfl
        exact hnotn (hteq ▸ List.mem_toFinset.mpr hx)

/-- C1: for every graph whose parents relation is acyclic (witnessed by a
rank function that strictly decreases along `parents`), and enough fuel
for the recursion to unfold, `trace_node root` visits exactly the nodes
reachable from `root` (including `root` itself), the tape has no
duplicates (each node is appended at most once however many paths reach
it), and the visited set is exactly the set of tape entries (so each node
enters the visited set at most once as well). -/
theorem trace_node_reachable {α : Type} [DecidableEq α] (G : α → List α) (rank : α → Nat)
    (hr : ∀ x, ∀ p ∈ G x, rank p < rank x) (root : α) (fuel : Nat) (hf : rank root < fuel) :
    (∀ m, m ∈ (trace_node G fuel root).nodes ↔ Reaches G root m) ∧
    (trace_node G fuel root).tape.Nodup ∧
    (trace_node G fuel root).nodes = (trace_node G fuel root).tape.toFinset := by
  have hgood : GoodState G ({ nodes := ∅, tape := [] } : TraceState α) := by
    refine ⟨?_, ?_, ?_⟩
    · intro x hx
      exact absurd hx (Finset.not_mem_empty _)
    · simp
    · exact List.nodup_nil
  obtain ⟨h1, _, hteq, hnd⟩ := visit_sound G rank hr fuel root { nodes := ∅, tape := [] } hf hgood
  refine ⟨fun m => ?_, hnd, hteq⟩
  rw [trace_node, h1 m]
  simp

/-- The diamond DAG of the spec: edges A→B, A→C, B→D, C→D with
A = 0, B = 1, C = 2, D = 3; `parents 3 = [1, 2]`, `parents 1 = [0]`,
`parents 2 = [0]`, `parents 0 = []`. -/
def diamondG : Fin 4 → List (Fin 4) :=
  fun i => if i = 3 then [1, 2] else if i = 1 then [0] else if i = 2 then [0] else []

theorem trace_node_reachable_witness :
    (∀ x, ∀ p ∈ diamondG x, (p : Fin 4).val < (x : Fin 4).val) ∧
    ((∀ m, m ∈ (trace_node diamondG 4 3).nodes ↔ Reaches diamondG 3 m) ∧
     (trace_node diamondG 4 3).tape.Nodup ∧
     (trace_node diamondG 4 3).nodes = (trace_node diamondG 4 3).tape.toFinset) :=
  ⟨by decide, trace_node_reachable diamondG (fun i => i.val) (by decide) 3 4 (by decide)⟩

/-- C2: on an acyclic graph the traversal terminates: the result of
`visit` (hence of `trace_node`) is independent of the fuel bound as soon
as it exceeds the rank of the node, and a node with no parents is visited
trivially, in a single step that just adds it to the set and tape. -/
theorem trace_node_terminates {α : Type} [DecidableEq α] (G : α → List α) (rank : α → Nat)
    (hr : ∀ x, ∀ p ∈ G x, rank p < rank x) (root : α) (s : TraceState α) (fuel1 fuel2 : Nat)
    (h1 : rank root < fuel1) (h2 : rank root < fuel2) :
    trace_node G fuel1 root = trace_node G fuel2 root ∧
    visit G fuel1 root s = visit G fuel2 root s ∧
    (G root = [] → root ∉ s.nodes →
      visit G fuel1 root s = { nodes := insert root s.nodes, tape := s.tape ++ [root] }) := by
  refine ⟨visit_fuel_congr G rank hr fuel1 fuel2 root _ h1 h2,
    visit_fuel_congr G rank hr fuel1 fuel2 root s h1 h2, fun hG hn => ?_⟩
  cases fuel1 with
  | zero => exact absurd h1 (Nat.not_lt_zero _)
  | succ f => simp [visit, hn, hG]

/-- A one-node graph with no edges. -/
def soloG : Fin 1 → List (Fin 1) := fun _ => []

theorem trace_node_terminates_witness :
    (∀ x, ∀ p ∈ soloG x, (p : Fin 1).val < (x : Fin 1).val) ∧
    (trace_node soloG 1 0 = trace_node soloG 2 0 ∧
     visit soloG 1 0 { nodes := ∅, tape := [] } = visit soloG 2 0 { nodes := ∅, tape := [] } ∧
     (soloG 0 = [] → (0 : Fin 1) ∉ ({ nodes := ∅, tape := [] } : TraceState (Fin 1)).nodes →
       visit soloG 1 0 { nodes := ∅, tape := [] }
         = { nodes := insert 0 (∅ : Finset (Fin 1)), tape := [] ++ [0] })) :=
  ⟨by decide, trace_node_terminates soloG (fun _ => 0) (by decide) 0 { nodes := ∅, tape := [] } 1 2
    (by decide) (by decide)⟩

/-- The output sink `sys.stdout` can point at: the real standard output,
or a `WritableNull` instance (whose `write` discards everything).  The
Python variable can also hold `None` (the initial value of
`original_stdout`), modelled by `Option.none` at use sites. -/
inductive Sink where
  | real : Sink
  | null : Sink
  deriving DecidableEq

/-- The `Tracker` state, together with the two pieces of ambient process
state it interacts with: the current `sys.stdout` (`stdout`) and the text
that has reached the real standard output so far (`output`).  `points` and
`maxes` are total functions standing for the Python dicts; accesses guard
on `questions` membership exactly where the dict lookup would raise. -/
structure Tracker where
  questions : List String
  maxes : String → Int
  prereqs : String → List String
  points : String → Int
  current_question : Option String
  current_test : Option String
  points_at_test_start : Option Int
  possible_points_remaining : Option Int
  mute_output : Bool
  original_stdout : Option Sink
  muted : Bool
  stdout : Option Sink
  output : List String

/-- `Tracker.__init__(questions, maxes, prereqs, mute_output)`, run while
`sys.stdout` is the real standard output. -/
def mkTracker (questions : List String) (maxes : String → Int) (prereqs : String → List String)
    (mute_output : Bool) : Tracker :=
  { questions := questions
    maxes := maxes
    prereqs := prereqs
    points := fun _ => 0
    current_question := none
    current_test := none
    points_at_test_start := none
    possible_points_remaining := none
    mute_output := mute_output
    original_stdout := none
    muted := false
    stdout := some Sink.real
    output := [] }

/-- `print(line)`: the line reaches `output` only when `sys.stdout` is the
real standard output; a write to a `WritableNull` sink is discarded.  (A
`None` sink would raise in Python; no state reachable through the
operations below prints while `stdout` is `none`.) -/
def printLine (t : Tracker) (line : String) : Tracker :=
  if t.stdout = some Sink.real then { t with output := t.output ++ [line] } else t

/-- `Tracker.mute`: a no-op when already muted, otherwise remembers the
current sink and redirects `sys.stdout` to a `WritableNull`. -/
def Tracker.mute (t : Tracker) : Tracker :=
  if t.muted then t
  else { t with muted := true, original_stdout := t.stdout, stdout := some Sink.null }

/-- `Tracker.unmute`: a no-op when not muted, otherwise restores the saved
sink. -/
def Tracker.unmute (t : Tracker) : Tracker :=
  if t.muted = false then t
  else { t with muted := false, stdout := t.original_stdout }

/-- `Tracker.begin_q`: `assert q in self.questions` (failure = `none`),
then set the current question and the remaining possible points, and
return `True`. -/
def Tracker.begin_q (t : Tracker) (q : String) : Option (Tracker × Bool) :=
  if q ∈ t.questions then
    some ({ t with current_question := some q, possible_points_remaining := some (t.maxes q) },
      true)
  else none

/-- `Tracker.begin_test`: record the test name and the points baseline
(`self.points[self.current_question]`, a dict access that raises unless a
known question is current — failure = `none`), print the header line, and
mute if output muting is configured. -/
def Tracker.begin_test (t : Tracker) (test_name : String) : Option Tracker :=
  match t.current_question with
  | some q =>
    if q ∈ t.questions then
      let t1 := { t with current_test := some test_name,
                         points_at_test_start := some (t.points q) }
      let t2 := printLine t1 ("*** " ++ q ++ ") " ++ test_name)
      some (if t2.mute_output then t2.mute else t2)
    else none
  | none => none

/-- `str(self.current_test)` as used in the PASS line format. -/
def fmtCurrentTest : Option String → String
  | some s => s
  | none => "None"

/-- `Tracker.end_test(pts)`: unmute if muting is configured, subtract
`pts` from the remaining possible points, print `PASS` when the awarded
total moved up by exactly `pts` since `begin_test`, else print `FAIL` when
it did not move at all, else print nothing; then clear the per-test state.
The arithmetic and the dict access raise unless a test and a known
question are active (failure = `none`). -/
def Tracker.end_test (t : Tracker) (pts : Int) : Option Tracker :=
  let t1 := if t.mute_output then t.unmute else t
  match t1.possible_points_remaining, t1.current_question, t1.points_at_test_start with
  | some rem, some q, some base =>
    if q ∈ t1.questions then
      let t2 := { t1 with possible_points_remaining := some (rem - pts) }
      let t3 :=
        if t2.points q = base + pts then
          printLine t2 ("*** PASS: " ++ fmtCurrentTest t2.current_test)
        else if t2.points q = base then
          printLine t2 "*** FAIL"
        else t2
      some { t3 with current_test := none, points_at_test_start := none }
    else none
  | _, _, _ => none

/-- `Tracker.end_q`: `assert self.current_question is not None` and
`assert self.possible_points_remaining == 0` (failure = `none`), then
clear the current-question state. -/
def Tracker.end_q (t : Tracker) : Option Tracker :=
  match t.current_question with
  | some _ =>
    if t.possible_points_remaining = some 0 then
      some { t with current_question := none, possible_points_remaining := none }
    else none
  | none => none

/-- `Tracker.add_points(pts)`: `self.points[self.current_question] += pts`
(the dict access raises unless a known question is current — failure =
`none`). -/
def Tracker.add_points (t : Tracker) (pts : Int) : Option Tracker :=
  match t.current_question with
  | some q =>
    if q ∈ t.questions then
      some { t with points := fun x => if x = q then t.points x + pts else t.points x }
    else none
  | none => none

@[simp] theorem mute_questions (t : Tracker) : t.mute.questions = t.questions := by
  unfold Tracker.mute
  split <;> rfl

@[simp] theorem mute_maxes (t : Tracker) : t.mute.maxes = t.maxes := by
  unfold Tracker.mute
  split <;> rfl

@[simp] theorem mute_points (t : Tracker) : t.mute.points = t.points := by
  unfold Tracker.mute
  split <;> rfl

@[simp] theorem mute_current_question (t : Tracker) : t.mute.current_question = t.current_question := by
  unfold Tracker.mute
  split <;> rfl

@[simp] theorem mute_current_test (t : Tracker) : t.mute.current_test = t.current_test := by
  unfold Tracker.mute
  split <;> rfl

@[simp] theorem mute_baseline (t : Tracker) : t.mute.points_at_test_start = t.points_at_test_start := by
  unfold Tracker.mute
  split <;> rfl

@[simp] theorem mute_remaining (t : Tracker) : t.mute.possible_points_remaining = t.possible_points_remaining := by
  unfold Tracker.mute
  split <;> rfl

@[simp] theorem mute_mo (t : Tracker) : t.mute.mute_output = t.mute_output := by
  unfold Tracker.mute
  split <;> rfl

@[simp] theorem mute_log (t : Tracker) : t.mute.output = t.output := by
  unfold Tracker.mute
  split <;> rfl

@[simp] theorem unmute_questions (t : Tracker) : t.unmute.questions = t.questions := by
  unfold Tracker.unmute
  split <;> rfl

@[simp] theorem unmute_maxes (t : Tracker) : t.unmute.maxes = t.maxes := by
  unfold Tracker.unmute
  split <;> rfl

@[simp] theorem unmute_points (t : Tracker) : t.unmute.points = t.points := by
  unfold Tracker.unmute
  split <;> rfl

@[simp] theorem unmute_current_question (t : Tracker) : t.unmute.current_question = t.current_question := by
  unfold Tracker.unmute
  split <;> rfl

@[simp] theorem unmute_current_test (t : Tracker) : t.unmute.current_test = t.current_test := by
  unfold Tracker.unmute
  split <;> rfl

@[simp] theorem unmute_baseline (t : Tracker) : t.unmute.points_at_test_start = t.points_at_test_start := by
  unfold Tracker.unmute
  split <;> rfl

@[simp] theorem unmute_remaining (t : Tracker) : t.unmute.possible_points_remaining = t.possible_points_remaining := by
  unfold Tracker.unmute
  split <;> rfl

@[simp] theorem unmute_mo (t : Tracker) : t.unmute.mute_output = t.mute_output := by
  unfold Tracker.unmute
  split <;> rfl

@[simp] theorem unmute_log (t : Tracker) : t.unmute.output = t.output := by
  unfold Tracker.unmute
  split <;> rfl

@[simp] theorem printLine_questions (t : Tracker) (l : String) : (printLine t l).questions = t.questions := by
  unfold printLine
  split <;> rfl

@[simp] theorem printLine_maxes (t : Tracker) (l : String) : (printLine t l).maxes = t.maxes := by
  unfold printLine
  split <;> rfl

@[simp] theorem printLine_points (t : Tracker) (l : String) : (printLine t l).points = t.points := by
  unfold printLine
  split <;> rfl

@[simp] theorem printLine_current_question (t : Tracker) (l : String) : (printLine t l).current_question = t.current_question := by
  unfold printLine
  split <;> rfl

@[simp] theorem printLine_current_test (t : Tracker) (l : String) : (printLine t l).current_test = t.current_test := by
  unfold printLine
  split <;> rfl

@[simp] theorem printLine_baseline (t : Tracker) (l : String) : (printLine t l).points_at_test_start = t.points_at_test_start := by
  unfold printLine
  split <;> rfl

@[simp] theorem printLine_remaining (t : Tracker) (l : String) : (printLine t l).possible_points_remaining = t.possible_points_remaining := by
  unfold printLine
  split <;> rfl

@[simp] theorem printLine_mo (t : Tracker) (l : String) : (printLine t l).mute_output = t.mute_output := by
  unfold printLine
  split <;> rfl

@[simp] theorem printLine_muted (t : Tracker) (l : String) : (printLine t l).muted = t.muted := by
  unfold printLine
  split <;> rfl

@[simp] theorem printLine_stdout (t : Tracker) (l : String) : (printLine t l).stdout = t.stdout := by
  unfold printLine
  split <;> rfl

/-- C4: `mute` and `unmute` are idempotent — a second `mute` (or a second
`unmute`) leaves the whole tracker state, in particular `sys.stdout` and
the saved original sink, unchanged — both are safe in either state, and
from an unmuted state the pair `mute` then `unmute` restores the sink that
was active before the `mute`. -/
theorem mute_unmute_props (t : Tracker) :
    t.mute.mute = t.mute ∧
    t.unmute.unmute = t.unmute ∧
    (t.muted = false → (t.mute.unmute.stdout = t.stdout ∧ t.mute.unmute.muted = false)) := by
  by_cases hm : t.muted
  · refine ⟨?_, ?_, ?_⟩
    · simp [Tracker.mute, hm]
    · simp [Tracker.unmute, hm]
    · intro hc
      rw [hm] at hc
      cases hc
  · refine ⟨?_, ?_, ?_⟩
    · simp [Tracker.mute, hm]
    · simp [Tracker.unmute, hm]
    · intro _
      simp [Tracker.mute, Tracker.unmute, hm]

theorem mute_unmute_props_witness :
    (mkTracker ["q1"] (fun _ => 0) (fun _ => []) false).muted = false ∧
    ((mkTracker ["q1"] (fun _ => 0) (fun _ => []) false).mute.unmute.stdout
        = (mkTracker ["q1"] (fun _ => 0) (fun _ => []) false).stdout ∧
      (mkTracker ["q1"] (fun _ => 0) (fun _ => []) false).mute.unmute.muted = false) :=
  ⟨rfl, (mute_unmute_props (mkTracker ["q1"] (fun _ => 0) (fun _ => []) false)).2.2 rfl⟩

/-- C5: `begin_q q` fails its assertion, touching no state, exactly when
`q` is not a known question id; on a known id it sets the current question
to `q`, sets the remaining possible points to `maxes[q]`, and returns
`True`. -/
theorem begin_q_spec (t : Tracker) (q : String) :
    (t.begin_q q = none ↔ q ∉ t.questions) ∧
    (q ∈ t.questions →
      t.begin_q q = some ({ t with current_question := some q,
                                   possible_points_remaining := some (t.maxes q) }, true)) := by
  unfold Tracker.begin_q
  by_cases h : q ∈ t.questions <;> simp [h]

theorem begin_q_spec_witness :
    "q1" ∈ (mkTracker ["q1"] (fun _ => 7) (fun _ => []) false).questions ∧
    (mkTracker ["q1"] (fun _ => 7) (fun _ => []) false).begin_q "q1"
      = some ({ mkTracker ["q1"] (fun _ => 7) (fun _ => []) false with
                  current_question := some "q1",
                  possible_points_remaining := some ((mkTracker ["q1"] (fun _ => 7) (fun _ => []) false).maxes "q1") },
          true) :=
  ⟨by decide,
    (begin_q_spec (mkTracker ["q1"] (fun _ => 7) (fun _ => []) false) "q1").2 (by decide)⟩

/-- C6: `end_q` fails an assertion exactly when no question is active or
the remaining possible points are not exactly zero; on success it clears
the current-question state and leaves the awarded points untouched. -/
theorem end_q_spec (t : Tracker) :
    (t.end_q = none ↔ (t.current_question = none ∨ t.possible_points_remaining ≠ some 0)) ∧
    (∀ u, t.end_q = some u →
      u.current_question = none ∧ u.possible_points_remaining = none ∧ u.points = t.points) := by
  unfold Tracker.end_q
  cases hcq : t.current_question with
  | none => simp
  | some q =>
    by_cases h : t.possible_points_remaining = some 0
    · constructor
      · simp [h]
      · intro u hu
        rw [if_pos h] at hu
        cases hu
        exact ⟨rfl, rfl, rfl⟩
    · constructor
      · simp [h]
      · intro u hu
        rw [if_neg h] at hu
        cases hu

/-- A tracker standing at the end of a fully-accounted question. -/
def T6w : Tracker :=
  { mkTracker ["q1"] (fun _ => 0) (fun _ => []) false with
      current_question := some "q1", possible_points_remaining := some 0 }

theorem end_q_spec_witness :
    ({ T6w with current_question := none,
                possible_points_remaining := none } : Tracker).current_question = none ∧
    ({ T6w with current_question := none,
                possible_points_remaining := none } : Tracker).possible_points_remaining = none ∧
    ({ T6w with current_question := none,
                possible_points_remaining := none } : Tracker).points = T6w.points :=
  (end_q_spec T6w).2 _ rfl

/-- The lines printed by an operation that turned the tracker `t` into the
tracker `u`: whatever `u` carries beyond the output `t` already had. -/
def newOutput (t u : Tracker) : List String :=
  u.output.drop t.output.length

theorem pass_line_ne_fail (s : String) : ("*** PASS: " ++ s) ≠ "*** FAIL" := by
  intro h
  have hlen := congrArg String.length h
  rw [String.length_append] at hlen
  have e1 : ("*** PASS: " : String).length = 10 := rfl
  have e2 : ("*** FAIL" : String).length = 8 := rfl
  omega

/-- What one `end_test pts` call does from a state with an active known
question, an active test, a recorded baseline and remaining points, and a
real output sink once the configured unmute has happened: it succeeds, and
it prints the PASS line when the awarded total is exactly
`baseline + pts`, the FAIL line when the awarded total is exactly the
baseline (and the PASS test did not already fire), and nothing
otherwise. -/
theorem end_test_run (t : Tracker) (q name : String) (base rem pts : Int)
    (hq : t.current_question = some q) (hmem : q ∈ t.questions)
    (htest : t.current_test = some name)
    (hbase : t.points_at_test_start = some base)
    (hrem : t.possible_points_remaining = some rem)
    (hsink : (if t.mute_output then t.unmute else t).stdout = some Sink.real) :
    ∃ u, t.end_test pts = some u ∧
      newOutput t u = (if t.points q = base + pts then ["*** PASS: " ++ name]
                       else if t.points q = base then ["*** FAIL"] else []) := by
  unfold Tracker.end_test
  by_cases hmo : t.mute_output = true
  · rw [if_pos hmo] at hsink ⊢
    simp only [unmute_remaining, unmute_current_question, unmute_baseline, unmute_questions,
      unmute_points, unmute_current_test, unmute_log, hrem, hq, hbase, hmem, if_true, htest,
      fmtCurrentTest]
    by_cases hp1 : t.points q = base + pts
    · refine ⟨_, rfl, ?_⟩
      simp [newOutput, hp1, printLine, hsink, List.drop_left]
    · by_cases hp2 : t.points q = base
      · have hz : pts ≠ 0 := by
          intro h0
          rw [h0, add_zero] at hp1
          exact hp1 hp2
        refine ⟨_, rfl, ?_⟩
        simp [newOutput, hp1, hp2, hz, printLine, hsink, List.drop_left]
      · refine ⟨_, rfl, ?_⟩
        simp [newOutput, hp1, hp2, List.drop_length]
  · rw [if_neg hmo] at hsink ⊢
    simp only [hrem, hq, hbase, hmem, if_true, htest, fmtCurrentTest]
    by_cases hp1 : t.points q = base + pts
    · refine ⟨_, rfl, ?_⟩
      simp [newOutput, hp1, printLine, hsink, List.drop_left]
    · by_cases hp2 : t.points q = base
      · have hz : pts ≠ 0 := by
          intro h0
          rw [h0, add_zero] at hp1
          exact hp1 hp2
        refine ⟨_, rfl, ?_⟩
        simp [newOutput, hp1, hp2, hz, printLine, hsink, List.drop_left]
      · refine ⟨_, rfl, ?_⟩
        simp [newOutput, hp1, hp2, List.drop_length]

/-- A tracker mid-test: active question `q1` (max 6), active test `t1`,
baseline 0, awarded total still 0. -/
def T3cx : Tracker :=
  { mkTracker ["q1"] (fun _ => 6) (fun _ => []) false with
      current_question := some "q1", current_test := some "t1",
      points_at_test_start := some 0, possible_points_remaining := some 6 }

/-- C3 counterexample: with `pts = 0` and the awarded total equal to the
baseline, `end_test` emits the PASS line and no FAIL line, although the
awarded total equals the baseline exactly — so "emits FAIL iff the awarded
total equals the baseline" is false as stated. -/
theorem end_test_fail_iff_cx :
    (T3cx.end_test 0).map (fun u => newOutput T3cx u) = some ["*** PASS: t1"] ∧
    T3cx.points "q1" = 0 ∧ T3cx.points_at_test_start = some 0 ∧
    ¬ (("*** FAIL" ∈ ["*** PASS: t1"]) ↔ T3cx.points "q1" = (0 : Int)) := by
  refine ⟨rfl, rfl, rfl, fun h => ?_⟩
  have hmem : ("*** FAIL" : String) ∈ ["*** PASS: t1"] := h.mpr rfl
  simp at hmem

/-- C3 (amended): from a state with an active known question and active
test and a real sink after the configured unmute, `end_test pts` emits the
PASS line iff the awarded total equals `baseline + pts` exactly, emits the
FAIL line iff the awarded total equals the baseline exactly AND the PASS
condition does not also hold (when `pts = 0` the two conditions coincide
and PASS takes precedence), and emits nothing when the awarded total is
strictly between the baseline and `baseline + pts`. -/
theorem end_test_emission (t : Tracker) (q name : String) (base rem pts : Int)
    (hq : t.current_question = some q) (hmem : q ∈ t.questions)
    (htest : t.current_test = some name)
    (hbase : t.points_at_test_start = some base)
    (hrem : t.possible_points_remaining = some rem)
    (hsink : (if t.mute_output then t.unmute else t).stdout = some Sink.real) :
    ∃ u, t.end_test pts = some u ∧
      ((("*** PASS: " ++ name) ∈ newOutput t u) ↔ t.points q = base + pts) ∧
      (("*** FAIL" ∈ newOutput t u) ↔ (t.points q = base ∧ t.points q ≠ base + pts)) ∧
      (base < t.points q → t.points q < base + pts → newOutput t u = []) := by
  obtain ⟨u, hu, hout⟩ := end_test_run t q name base rem pts hq hmem htest hbase hrem hsink
  refine ⟨u, hu, ?_, ?_, ?_⟩
  · rw [hout]
    by_cases hp1 : t.points q = base + pts
    · simp [hp1]
    · by_cases hp2 : t.points q = base
      · simp only [if_neg hp1, if_pos hp2, List.mem_singleton]
        exact iff_of_false (pass_line_ne_fail name) hp1
      · simp [hp1, hp2]
  · rw [hout]
    by_cases hp1 : t.points q = base + pts
    · simp only [if_pos hp1, List.mem_singleton]
      refine iff_of_false (fun h => pass_line_ne_fail name h.symm) ?_
      rintro ⟨_, hc⟩
      exact hc hp1
    · by_cases hp2 : t.points q = base
      · have hz : pts ≠ 0 := by
          intro h0
          rw [h0, add_zero] at hp1
          exact hp1 hp2
        simp [hp1, hp2, hz]
      · simp [hp1, hp2]
  · intro hlo hhi
    have hp1 : t.points q ≠ base + pts := by omega
    have hp2 : t.points q ≠ base := by omega
    rw [hout, if_neg hp1, if_neg hp2]

/-- A tracker mid-test about to pass: awarded total 6 = baseline 0 + 6. -/
def T3w : Tracker :=
  { mkTracker ["q1"] (fun _ => 6) (fun _ => []) false with
      points := fun _ => 6,
      current_question := some "q1", current_test := some "t1",
      points_at_test_start := some 0, possible_points_remaining := some 6 }

theorem end_test_emission_witness :
    T3w.current_question = some "q1" ∧ "q1" ∈ T3w.questions ∧
    (∃ u, T3w.end_test 6 = some u ∧
      ((("*** PASS: " ++ "t1") ∈ newOutput T3w u) ↔ T3w.points "q1" = 0 + 6) ∧
      (("*** FAIL" ∈ newOutput T3w u) ↔ (T3w.points "q1" = 0 ∧ T3w.points "q1" ≠ 0 + 6)) ∧
      ((0 : Int) < T3w.points "q1" → T3w.points "q1" < 0 + 6 → newOutput T3w u = [])) :=
  ⟨rfl, by decide,
    end_test_emission T3w "q1" "t1" 0 6 6 rfl (by decide) rfl rfl rfl rfl⟩

/-- C10: when `end_test 0` is called with the awarded total equal to the
baseline — so the PASS condition `baseline + 0` and the FAIL condition
`baseline` coincide — the PASS branch wins: the PASS line is emitted and
no FAIL line is. -/
theorem end_test_zero_pass (t : Tracker) (q name : String) (base rem : Int)
    (hq : t.current_question = some q) (hmem : q ∈ t.questions)
    (htest : t.current_test = some name)
    (hbase : t.points_at_test_start = some base)
    (hrem : t.possible_points_remaining = some rem)
    (hsink : (if t.mute_output then t.unmute else t).stdout = some Sink.real)
    (hpoints : t.points q = base) :
    ∃ u, t.end_test 0 = some u ∧
      newOutput t u = ["*** PASS: " ++ name] ∧ "*** FAIL" ∉ newOutput t u := by
  obtain ⟨u, hu, hout⟩ := end_test_run t q name base rem 0 hq hmem htest hbase hrem hsink
  have hc : t.points q = base + 0 := by omega
  rw [if_pos hc] at hout
  refine ⟨u, hu, hout, ?_⟩
  rw [hout]
  simp only [List.mem_singleton]
  exact fun h => pass_line_ne_fail name h.symm

/-- A tracker mid-test with everything still at the baseline. -/
def T10w : Tracker :=
  { mkTracker ["q2"] (fun _ => 4) (fun _ => []) false with
      current_question := some "q2", current_test := some "t2",
      points_at_test_start := some 0, possible_points_remaining := some 4 }

theorem end_test_zero_pass_witness :
    T10w.points "q2" = 0 ∧
    (∃ u, T10w.end_test 0 = some u ∧
      newOutput T10w u = ["*** PASS: " ++ "t2"] ∧ "*** FAIL" ∉ newOutput T10w u) :=
  ⟨rfl, end_test_zero_pass T10w "q2" "t2" 0 4 rfl (by decide) rfl rfl rfl rfl rfl⟩

/-- What running one registered test function can do: return normally,
raise some exception other than an interrupt, or raise
`KeyboardInterrupt`.  A test receives the tracker and yields the mutated
tracker together with the outcome. -/
inductive Outcome where
  | ok : Outcome
  | error : Outcome
  | interrupt : Outcome

/-- A registered test body. -/
abbrev TestFn : Type := Tracker → Tracker × Outcome

/-- How a run of the driver (or of a piece of it) ends: normal
completion, `sys.exit(code)`, or an uncaught assertion failure. -/
inductive RunResult where
  | finished : Tracker → RunResult
  | exited : Nat → Tracker → RunResult
  | aborted : Tracker → RunResult

/-- The driver loop over `TESTS`: computing `maxes[q]` as
`maxes.get(q, 0) + points` accumulated over the registry, left as the
total function the dict stands for. -/
def computeMaxes {F : Type} (tests : List (String × Int × F)) : String → Int :=
  tests.foldl (fun m x => fun s => if s = x.1 then m s + x.2.1 else m s) (fun _ => 0)

/-- `questions = list(sorted(questions))` where `questions` is the set of
distinct question ids appearing in the registry. -/
def driverQuestions {F : Type} (tests : List (String × Int × F)) : List String :=
  ((tests.map (fun x => x.1)).toFinset).sort (fun a b => a ≤ b)

/-- The inner filter of the driver: the tests registered for `q`, in
registration order. -/
def questionTests {F : Type} (tests : List (String × Int × F)) (q : String) :
    List (String × Int × F) :=
  tests.filter (fun x => decide (x.1 = q))

/-- The full execution schedule of the driver: for each question in
sorted order, its tests in registration order. -/
def driverSchedule {F : Type} (tests : List (String × Int × F)) :
    List (String × Int × F) :=
  (driverQuestions tests).flatMap (fun q => questionTests tests q)

/-- The driver's inner try/except loop over the tests of one question:
`KeyboardInterrupt` unmutes and exits the process with code 1; any other
exception unmutes and moves on to the next test. -/
def runTestList : List (String × Int × TestFn) → Tracker → RunResult
  | [], t => RunResult.finished t
  | (_, _, fn) :: rest, t =>
    match fn t with
    | (t1, Outcome.ok) => runTestList rest t1
    | (t1, Outcome.error) => runTestList rest t1.unmute
    | (t1, Outcome.interrupt) => RunResult.exited 1 t1.unmute

/-- The driver's outer loop over the sorted question ids: `begin_q`, run
the question's tests, `end_q`; a failed assertion aborts the run, and an
exit from the test loop ends the whole process. -/
def runQuestions (tests : List (String × Int × TestFn)) :
    List String → Tracker → RunResult
  | [], t => RunResult.finished t
  | q :: qs, t =>
    match t.begin_q q with
    | none => RunResult.aborted t
    | some (t1, started) =>
      if started then
        match runTestList (questionTests tests q) t1 with
        | RunResult.finished t2 =>
          match t2.end_q with
          | none => RunResult.aborted t2
          | some t3 => runQuestions tests qs t3
        | r => r
      else runQuestions tests qs t1

/-- `main()`: build the question set and maxes from the registry, make
the tracker (muting disabled), and run the questions in sorted order. -/
def main (tests : List (String × Int × TestFn)) : RunResult :=
  runQuestions tests (driverQuestions tests)
    (mkTracker (driverQuestions tests) (computeMaxes tests) (fun _ => []) false)

theorem computeMaxes_foldl {F : Type} :
    ∀ (tests : List (String × Int × F)) (m : String → Int) (q : String),
      (tests.foldl (fun m x => fun s => if s = x.1 then m s + x.2.1 else m s) m) q
        = m q + ((questionTests tests q).map (fun x => x.2.1)).sum := by
  intro tests
  induction tests with
  | nil => simp [questionTests]
  | cons x tests ih =>
    intro m q
    rw [List.foldl_cons, ih]
    by_cases h : x.1 = q
    · simp [questionTests, List.filter_cons, h]
      ring
    · have h2 : ¬(q = x.1) := fun hc => h hc.symm
      simp [questionTests, List.filter_cons, h, h2]

theorem filter_flatMap_questionTests {F : Type} (tests : List (String × Int × F)) :
    ∀ (qs : List String) (q : String), qs.Nodup →
      (qs.flatMap (fun q2 => questionTests tests q2)).filter (fun x => decide (x.1 = q))
        = if q ∈ qs then questionTests tests q else [] := by
  intro qs
  induction qs with
  | nil => simp
  | cons q0 qs ih =>
    intro q hnd
    rw [List.flatMap_cons, List.filter_append, ih q (List.nodup_cons.mp hnd).2]
    by_cases h : q = q0
    · subst h
      have h1 : (questionTests tests q).filter (fun x => decide (x.1 = q))
          = questionTests tests q := by
        refine List.filter_eq_self.mpr (fun x hx => ?_)
        have := (List.mem_filter.mp hx).2
        simpa using this
      have h2 : q ∉ qs := (List.nodup_cons.mp hnd).1
      simp [h1, h2]
    · have h1 : (questionTests tests q0).filter (fun x => decide (x.1 = q)) = [] := by
        refine List.filter_eq_nil_iff.mpr (fun x hx => ?_)
        have hx0 : x.1 = q0 := by simpa using (List.mem_filter.mp hx).2
        simp [hx0]
        exact fun hc => h hc.symm
      have h3 : (q ∈ q0 :: qs) = (q ∈ qs) := by
        simp [List.mem_cons, h]
      simp [h1, h3]

/-- C7: the driver executes question ids in lexicographically sorted
order — the sorted, duplicate-free list of exactly the registered ids,
whatever the registration order was; within a question it runs the tests
in registration order (the schedule restricted to `q` is exactly the
registry filtered to `q`, a sublist of the registry); and `maxes[q]` is
the sum of the declared point values of all tests registered for `q`. -/
theorem driver_order_and_maxes {F : Type} (tests : List (String × Int × F)) :
    (driverQuestions tests).Sorted (fun a b => a ≤ b) ∧
    (driverQuestions tests).Nodup ∧
    (∀ q, q ∈ driverQuestions tests ↔ q ∈ tests.map (fun x => x.1)) ∧
    (∀ q, (driverSchedule tests).filter (fun x => decide (x.1 = q)) = questionTests tests q) ∧
    (∀ q, List.Sublist (questionTests tests q) tests) ∧
    (∀ q, computeMaxes tests q = ((questionTests tests q).map (fun x => x.2.1)).sum) := by
  have hnd : (driverQuestions tests).Nodup := Finset.sort_nodup _ _
  have hmem : ∀ q, q ∈ driverQuestions tests ↔ q ∈ tests.map (fun x => x.1) := by
    intro q
    rw [driverQuestions, Finset.mem_sort, List.mem_toFinset]
  refine ⟨Finset.sort_sorted _ _, hnd, hmem, ?_, fun q => List.filter_sublist _,
    fun q => ?_⟩
  · intro q
    rw [driverSchedule, filter_flatMap_questionTests tests _ q hnd]
    by_cases h : q ∈ driverQuestions tests
    · rw [if_pos h]
    · rw [if_neg h]
      symm
      refine List.filter_eq_nil_iff.mpr (fun x hx => ?_)
      intro hc
      have hx1 : x.1 = q := by simpa using hc
      exact h ((hmem q).mpr (List.mem_map.mpr ⟨x, hx, hx1⟩))
  · rw [computeMaxes, computeMaxes_foldl tests (fun _ => 0) q, zero_add]

/-- The registration order of the spec example: a test for `q2` first,
then one for `q1`. -/
def cTests : List (String × Int × Unit) := [("q2", 1, ()), ("q1", 2, ())]

theorem sorted_nodup_pair {a b : String} (l : List String) (hab : a < b)
    (hs : l.Sorted (fun x y => x ≤ y)) (hn : l.Nodup)
    (hm : ∀ x, x ∈ l ↔ (x = a ∨ x = b)) : l = [a, b] := by
  have h2 : ([a, b] : List String).Nodup := by
    simp [ne_of_lt hab]
  have hperm : l.Perm [a, b] := by
    refine (List.perm_ext_iff_of_nodup hn h2).mpr (fun x => ?_)
    rw [hm x]
    simp
  refine List.eq_of_perm_of_sorted hperm hs ?_
  refine List.sorted_cons.mpr ⟨?_, List.sorted_singleton b⟩
  intro c hc
  rcases List.mem_singleton.mp hc with rfl
  exact le_of_lt hab

theorem driver_order_and_maxes_witness :
    driverQuestions cTests = ["q1", "q2"] ∧
    computeMaxes cTests "q1" = 2 ∧ computeMaxes cTests "q2" = 1 := by
  obtain ⟨hs, hn, hmem, _, _, hmax⟩ := driver_order_and_maxes cTests
  have hq12 : ("q1" : String) < "q2" := by
    rw [String.lt_iff_toList_lt]
    decide
  have heq : driverQuestions cTests = ["q1", "q2"] := by
    refine sorted_nodup_pair _ hq12 hs hn (fun x => ?_)
    rw [hmem x]
    constructor
    · intro hx
      rcases List.mem_map.mp hx with ⟨y, hy, hxy⟩
      rcases List.mem_cons.mp hy with rfl | hy2
      · exact Or.inr hxy.symm
      · rcases List.mem_singleton.mp hy2 with rfl
        exact Or.inl hxy.symm
    · rintro (rfl | rfl)
      · exact List.mem_map.mpr ⟨("q1", 2, ()), by simp [cTests], rfl⟩
      · exact List.mem_map.mpr ⟨("q2", 1, ()), by simp [cTests], rfl⟩
  refine ⟨heq, ?_, ?_⟩
  · rw [hmax "q1"]
    rfl
  · rw [hmax "q2"]
    rfl

/-- C8: in the driver's per-test try/except, a test that raises a
non-interrupt exception makes the driver unmute and continue with the
next registered test, with the awarded points untouched by the handler;
a test that raises an interrupt makes the driver unmute and end the whole
process at once with exit code 1. -/
theorem driver_test_exceptions (t : Tracker) (q : String) (p : Int) (fn : TestFn)
    (rest : List (String × Int × TestFn)) :
    (∀ t1, fn t = (t1, Outcome.error) →
      runTestList ((q, p, fn) :: rest) t = runTestList rest t1.unmute ∧
      t1.unmute.points = t1.points) ∧
    (∀ t1, fn t = (t1, Outcome.interrupt) →
      runTestList ((q, p, fn) :: rest) t = RunResult.exited 1 t1.unmute ∧
      t1.unmute.points = t1.points) := by
  constructor
  · intro t1 h
    rw [runTestList, h]
    exact ⟨rfl, unmute_points t1⟩
  · intro t1 h
    rw [runTestList, h]
    exact ⟨rfl, unmute_points t1⟩

/-- A test body that raises a non-interrupt exception at once. -/
def fnError : TestFn := fun t => (t, Outcome.error)

/-- A test body that raises `KeyboardInterrupt` at once. -/
def fnInterrupt : TestFn := fun t => (t, Outcome.interrupt)

/-- A tracker inside the loop of question `q1`. -/
def T8w : Tracker :=
  { mkTracker ["q1"] (fun _ => 1) (fun _ => []) false with
      current_question := some "q1", possible_points_remaining := some 1 }

theorem driver_test_exceptions_witness :
    (runTestList [("q1", 1, fnError)] T8w = runTestList [] T8w.unmute ∧
      T8w.unmute.points = T8w.points) ∧
    (runTestList [("q1", 1, fnInterrupt)] T8w = RunResult.exited 1 T8w.unmute ∧
      T8w.unmute.points = T8w.points) :=
  ⟨(driver_test_exceptions T8w "q1" 1 fnError []).1 T8w rfl,
    (driver_test_exceptions T8w "q1" 1 fnInterrupt []).2 T8w rfl⟩

theorem begin_test_fields (t : Tracker) (q name : String)
    (hq : t.current_question = some q) (hmem : q ∈ t.questions) :
    ∃ u, t.begin_test name = some u ∧
      u.points = t.points ∧ u.current_question = some q ∧ u.questions = t.questions ∧
      u.maxes = t.maxes ∧ u.possible_points_remaining = t.possible_points_remaining ∧
      u.points_at_test_start = some (t.points q) ∧ u.current_test = some name ∧
      u.mute_output = t.mute_output := by
  unfold Tracker.begin_test
  rw [hq]
  simp only [hmem, if_true]
  by_cases hmo : t.mute_output = true
  · refine ⟨_, rfl, ?_, ?_, ?_, ?_, ?_, ?_, ?_, ?_⟩ <;>
      simp [hmo, hq]
  · refine ⟨_, rfl, ?_, ?_, ?_, ?_, ?_, ?_, ?_, ?_⟩ <;>
      simp [hmo, hq]

theorem add_points_fields (t : Tracker) (q : String) (a : Int)
    (hq : t.current_question = some q) (hmem : q ∈ t.questions) :
    ∃ u, t.add_points a = some u ∧
      u.points q = t.points q + a ∧ (∀ x, x ≠ q → u.points x = t.points x) ∧
      u.current_question = some q ∧ u.questions = t.questions ∧
      u.maxes = t.maxes ∧ u.possible_points_remaining = t.possible_points_remaining ∧
      u.points_at_test_start = t.points_at_test_start ∧ u.current_test = t.current_test ∧
      u.mute_output = t.mute_output := by
  unfold Tracker.add_points
  rw [hq]
  simp only [hmem, if_true]
  refine ⟨_, rfl, ?_, ?_, rfl, rfl, rfl, rfl, rfl, rfl, rfl⟩
  · simp
  · intro x hx
    simp [hx]

theorem end_test_state (t : Tracker) (q : String) (base rem d : Int)
    (hq : t.current_question = some q) (hmem : q ∈ t.questions)
    (hbase : t.points_at_test_start = some base)
    (hrem : t.possible_points_remaining = some rem) :
    ∃ u, t.end_test d = some u ∧
      u.points = t.points ∧ u.current_question = some q ∧ u.questions = t.questions ∧
      u.maxes = t.maxes ∧ u.possible_points_remaining = some (rem - d) ∧
      u.mute_output = t.mute_output ∧ u.current_test = none ∧
      u.points_at_test_start = none := by
  unfold Tracker.end_test
  by_cases hmo : t.mute_output = true
  · rw [if_pos hmo]
    simp only [unmute_remaining, unmute_current_question, unmute_baseline, unmute_questions,
      hrem, hq, hbase, hmem, if_true]
    refine ⟨_, rfl, ?_, ?_, ?_, ?_, ?_, ?_, ?_, ?_⟩ <;>
      (try split) <;> (try split) <;> simp
  · rw [if_neg hmo]
    simp only [hrem, hq, hbase, hmem, if_true]
    refine ⟨_, rfl, ?_, ?_, ?_, ?_, ?_, ?_, ?_, ?_⟩ <;>
      (try split) <;> (try split) <;> simp

/-- One full test of the session protocol the spec describes for a
question: `begin_test`, a single `add_points` call awarding `a` points,
then `end_test d` with the test declared worth `d` points. -/
def runSingleTest (t : Tracker) (test_name : String) (a d : Int) : Option Tracker :=
  (t.begin_test test_name).bind (fun t1 => (t1.add_points a).bind (fun t2 => t2.end_test d))

/-- A sequence of tests for the current question, each awarding its first
component and declared worth its second. -/
def runOps (t : Tracker) : List (Int × Int) → Option Tracker
  | [] => some t
  | (a, d) :: rest => (runSingleTest t "test" a d).bind (fun t1 => runOps t1 rest)

theorem runSingleTest_spec (t : Tracker) (q name : String) (r a d : Int)
    (hq : t.current_question = some q) (hmem : q ∈ t.questions)
    (hrem : t.possible_points_remaining = some r) :
    ∃ u, runSingleTest t name a d = some u ∧
      u.points q = t.points q + a ∧ u.current_question = some q ∧
      u.questions = t.questions ∧ u.maxes = t.maxes ∧
      u.possible_points_remaining = some (r - d) := by
  obtain ⟨u1, h1, hP1, hQ1, hqs1, hm1, hr1, hb1, hct1, hmo1⟩ := begin_test_fields t q name hq hmem
  obtain ⟨u2, h2, hP2, hO2, hQ2, hqs2, hm2, hr2, hb2, hct2, hmo2⟩ :=
    add_points_fields u1 q a hQ1 (by rw [hqs1]; exact hmem)
  obtain ⟨u3, h3, hP3, hQ3, hqs3, hm3, hr3, hmo3, hct3, hb3⟩ :=
    end_test_state u2 q (t.points q) r d hQ2 (by rw [hqs2, hqs1]; exact hmem)
      (by rw [hb2, hb1]) (by rw [hr2, hr1, hrem])
  refine ⟨u3, ?_, ?_, hQ3, ?_, ?_, hr3⟩
  · rw [runSingleTest, h1, Option.some_bind, h2, Option.some_bind, h3]
  · rw [hP3, hP2, hP1]
  · rw [hqs3, hqs2, hqs1]
  · rw [hm3, hm2, hm1]

theorem runOps_spec (q : String) :
    ∀ (ops : List (Int × Int)) (t : Tracker) (r : Int),
      t.current_question = some q → q ∈ t.questions →
      t.possible_points_remaining = some r →
      ∃ u, runOps t ops = some u ∧
        u.points q = t.points q + (ops.map (fun x => x.1)).sum ∧
        u.current_question = some q ∧ u.questions = t.questions ∧ u.maxes = t.maxes ∧
        u.possible_points_remaining = some (r - (ops.map (fun x => x.2)).sum) := by
  intro ops
  induction ops with
  | nil =>
    intro t r hq hmem hr
    refine ⟨t, rfl, by simp, hq, rfl, rfl, ?_⟩
    rw [hr]
    norm_num
  | cons x rest ih =>
    obtain ⟨a, d⟩ := x
    intro t r hq hmem hr
    obtain ⟨u1, h1, hp1, hq1, hqs1, hm1, hr1⟩ := runSingleTest_spec t q "test" r a d hq hmem hr
    obtain ⟨u, h2, hp2, hq2, hqs2, hm2, hr2⟩ := ih u1 (r - d) hq1 (by rw [hqs1]; exact hmem) hr1
    refine ⟨u, ?_, ?_, hq2, by rw [hqs2, hqs1], by rw [hm2, hm1], ?_⟩
    · simp only [runOps]
      rw [h1, Option.some_bind, h2]
    · rw [hp2, hp1]
      simp only [List.map_cons, List.sum_cons]
      ring
    · rw [hr2]
      simp only [List.map_cons, List.sum_cons]
      congr 1
      ring

/-- A fresh tracker over one question `q1` worth 6 points. -/
def T9cx : Tracker := mkTracker ["q1"] (fun _ => 6) (fun _ => []) false

/-- C9 counterexample: a question session the Tracker accepts — one test
declared worth 6 points that awards 7 — ends with `end_q` succeeding
(remaining-possible reached exactly 0) yet `points[q] = 7 > 6 = maxes[q]`:
nothing in the code bounds awarded points by the declared point values. -/
theorem points_exceed_maxes_cx :
    ((((T9cx.begin_q "q1").bind (fun x => runOps x.1 [(7, 6)])).bind
        (fun u => u.end_q)).map (fun u => u.points "q1")) = some 7 ∧
    T9cx.maxes "q1" = 6 ∧ ¬ ((7 : Int) ≤ 6) :=
  ⟨rfl, rfl, by decide⟩

/-- C9 (amended): provided each test of the question awards at most its
declared point value, then after a successful `end_q` the awarded total
satisfies `points[q] ≤ maxes[q]`: a successful `end_q` forces the
declared values to sum to exactly `maxes[q]`, and the awarded total is
bounded by that sum. -/
theorem points_le_maxes (t : Tracker) (q : String) (ops : List (Int × Int))
    (t1 : Tracker) (b : Bool) (t2 t3 : Tracker)
    (hpts0 : t.points q = 0)
    (hbound : ∀ x ∈ ops, x.1 ≤ x.2)
    (h1 : t.begin_q q = some (t1, b))
    (h2 : runOps t1 ops = some t2)
    (h3 : t2.end_q = some t3) :
    t3.points q ≤ t.maxes q := by
  unfold Tracker.begin_q at h1
  by_cases hmem : q ∈ t.questions
  · rw [if_pos hmem] at h1
    cases h1
    obtain ⟨u, hu, hp, hq2, hqs, hm, hr⟩ :=
      runOps_spec q ops
        { t with current_question := some q,
                 possible_points_remaining := some (t.maxes q) }
        (t.maxes q) rfl (by simpa using hmem) rfl
    rw [h2] at hu
    cases hu
    unfold Tracker.end_q at h3
    rw [hq2] at h3
    by_cases hz : t2.possible_points_remaining = some 0
    · rw [if_pos hz] at h3
      cases h3
      rw [hr] at hz
      have hz0 : t.maxes q - (ops.map (fun x => x.2)).sum = 0 := by
        injection hz
      have ha : (ops.map (fun x => x.1)).sum ≤ (ops.map (fun x => x.2)).sum :=
        List.sum_le_sum hbound
      have hpts : t2.points q = t.points q + (ops.map (fun x => x.1)).sum := hp
      show t2.points q ≤ t.maxes q
      rw [hpts, hpts0]
      omega
    · rw [if_neg hz] at h3
      cases h3
  · rw [if_neg hmem] at h1
    cases h1

/-- A fresh tracker over one question `q1` worth 6 points, for the
well-behaved session. -/
def T9w : Tracker := mkTracker ["q1"] (fun _ => 6) (fun _ => []) false

/-- `T9w` just after `begin_q "q1"`. -/
def T9w1 : Tracker := { T9w with current_question := some "q1", possible_points_remaining := some 6 }

/-- `T9w1` after two tests awarding exactly their declared 2 and 4 points. -/
def T9w2 : Tracker := (runOps T9w1 [(2, 2), (4, 4)]).getD T9w1

/-- `T9w2` after `end_q`. -/
def T9w3 : Tracker := (T9w2.end_q).getD T9w2

theorem points_le_maxes_witness :
    T9w.points "q1" = 0 ∧ (∀ x ∈ [((2 : Int), (2 : Int)), (4, 4)], x.1 ≤ x.2) ∧
    T9w3.points "q1" ≤ T9w.maxes "q1" :=
  ⟨rfl, by decide,
    points_le_maxes T9w "q1" [(2, 2), (4, 4)] T9w1 true T9w2 T9w3 rfl (by decide) rfl rfl rfl⟩

end MLSpec
